import Mathlib

/-!
Verification development for the synchronization + caching subsystem of an
AI customer-support backend.  The definitions below are a shallow embedding
of the Python sources:

  * `backend/app/core/redis_client.py`  — key-value cache client,
  * `backend/app/services/cache.py`     — cache key conventions and fan-out,
  * `backend/app/services/graph.py`     — graph (Neo4j) projection of rows,
  * `backend/app/services/etl.py`       — batched full/incremental sync and
    integrity validation.

Machine floats of the source are modelled as rationals, JSON values as an
abstract value type (`json.loads ∘ json.dumps` is the identity on the
JSON-serializable payloads the services cache), wall-clock instants as
natural numbers, and the networked stores as explicit state passed through
the operations.
-/

set_option maxRecDepth 8000

namespace AICS

/-! ## Keys and glob matching

Redis keys are modelled as lists of characters.  `redis.keys(pattern)`
performs glob matching; the patterns this repository uses contain only
literal characters and `*`, so the model implements exactly that subset
(`*` matches any, possibly empty, sequence of characters). -/

abbrev Key := List Char

/-- Characters of a string literal, as a key fragment. -/
def lit (s : String) : List Char := s.data

/-- Glob matching with literal characters and `*` (as used by `redis.keys`).
`*` matches any sequence of characters, so a pattern `'*' :: p` matches `s`
iff `p` matches some suffix of `s`. -/
def globMatch : List Char → List Char → Bool
  | [], s => s.isEmpty
  | a :: p, s =>
    if a = '*' then s.tails.any (fun t => globMatch p t)
    else
      match s with
      | [] => false
      | c :: s' => decide (a = c) && globMatch p s'

/-! ## Key-value cache model (`backend/app/core/redis_client.py`)

A cache state maps a key to its stored value together with its absolute
expiry instant (`None` for keys stored without a TTL).  `RedisClient.set`
serializes the value to JSON and calls `SETEX key expire value` when
`expire` is truthy (Python: `if expire:` — so both `None` and `0` store
the key without expiry); `RedisClient.get` deserializes and returns `None`
for a missing or expired key. -/

structure CacheEntry (α : Type) where
  value : α
  expiresAt : Option Nat
  deriving DecidableEq

def CacheState (α : Type) : Type := Key → Option (CacheEntry α)

/-- The empty cache. -/
def emptyCache (α : Type) : CacheState α := fun _ => none

/-- `RedisClient.get` at instant `now`: a present, unexpired key yields its
value; a missing or expired key yields `None`. -/
def redisGet {α : Type} (s : CacheState α) (k : Key) (now : Nat) : Option α :=
  match s k with
  | none => none
  | some e =>
    match e.expiresAt with
    | none => some e.value
    | some t => if now < t then some e.value else none

/-- `RedisClient.set` at instant `now`.  Mirrors `if expire:`: a `none` or
zero TTL stores the key without expiry, a positive TTL `e` stores it with
absolute expiry `now + e`. -/
def redisSet {α : Type} (s : CacheState α) (k : Key) (v : α)
    (expire : Option Nat) (now : Nat) : CacheState α :=
  fun k' =>
    if k' = k then
      some { value := v
             expiresAt :=
               match expire with
               | none => none
               | some e => if e = 0 then none else some (now + e) }
    else s k'

/-- `RedisClient.delete`. -/
def redisDelete {α : Type} (s : CacheState α) (k : Key) : CacheState α :=
  fun k' => if k' = k then none else s k'

/-- `RedisClient.invalidate_pattern`: resolves `keys(pattern)` and deletes
every matching key. -/
def redisInvalidatePattern {α : Type} (s : CacheState α) (p : Key) : CacheState α :=
  fun k' => if globMatch p k' then none else s k'

/-- A cache-store operation, used to speak about what later operations may
do to an earlier key. -/
inductive CacheOp (α : Type) where
  | setOp (k : Key) (v : α) (expire : Option Nat) (now : Nat)
  | delOp (k : Key)
  | invOp (p : Key)

def applyCacheOp {α : Type} (s : CacheState α) : CacheOp α → CacheState α
  | .setOp k v e t => redisSet s k v e t
  | .delOp k => redisDelete s k
  | .invOp p => redisInvalidatePattern s p

def applyCacheOps {α : Type} (s : CacheState α) (ops : List (CacheOp α)) : CacheState α :=
  ops.foldl applyCacheOp s

/-- An operation touches key `k` when it is a set or delete of `k` itself,
or a pattern invalidation whose glob matches `k`. -/
def touches {α : Type} (k : Key) : CacheOp α → Bool
  | .setOp k' _ _ _ => decide (k' = k)
  | .delOp k' => decide (k' = k)
  | .invOp p => globMatch p k

/-! ## Cache key conventions (`backend/app/services/cache.py`)

`CacheService.cache_graph_results` stores under `f"graph:{query_type}:{customer_id}"`
and `CacheService.invalidate_customer_graph_cache` deletes the glob
`f"graph:*:{customer_id}"`.  Customer ids are rendered in decimal, so they
are nonempty digit strings. -/

/-- The key `f"graph:{query_type}:{customer_id}"` with the id already
rendered to its decimal digits. -/
def graphCacheKey (queryType : List Char) (idDigits : List Char) : Key :=
  lit "graph:" ++ queryType ++ ':' :: idDigits

/-- The glob `f"graph:*:{customer_id}"`. -/
def graphInvalidateGlob (idDigits : List Char) : Key :=
  lit "graph:*:" ++ idDigits

/-- `CacheService.invalidate_customer_graph_cache`. -/
def invalidateCustomerGraphCache {α : Type} (s : CacheState α) (idDigits : List Char) :
    CacheState α :=
  redisInvalidatePattern s (graphInvalidateGlob idDigits)

/-! ## Graph projection of customers (`GraphService.sync_customer_to_graph`)

The Cypher statement is `MERGE (c:Customer {customer_id: $customer_id})
SET c.name = ..., c.updated_at = datetime()`.  `MERGE` on the unique key
matches an existing node and otherwise creates one; `SET` then overwrites
every mutable attribute.  The graph's customer sub-state is modelled as
the list of `Customer` nodes; the server-side `datetime()` is an explicit
instant argument.  Dict payloads built by the ETL layer may carry missing
(`None`-valued) entries, modelled with `Option`; `dict.get(key, default)`
becomes `Option.getD`. -/

structure CustomerNode where
  customer_id : Nat
  name : String
  email : String
  communication_style : String
  relationship_stage : String
  satisfaction_score : ℚ
  created_at : String
  updated_at : Nat
  deriving DecidableEq

/-- The `customer_data` dict passed to `sync_customer_to_graph`. -/
structure CustomerData where
  id : Nat
  name : Option String := none
  email : Option String := none
  communication_style : Option String := none
  relationship_stage : Option String := none
  satisfaction_score : Option ℚ := none
  created_at : Option String := none
  deriving DecidableEq

/-- The node attribute values produced by the `SET` clause: every `.get`
default of the query parameters (`""`, `0.5`, `utcnow().isoformat()`), and
`updated_at = datetime()` as the server instant `now`. -/
def customerNodeOf (d : CustomerData) (nowIso : String) (now : Nat) : CustomerNode :=
  { customer_id := d.id
    name := d.name.getD ""
    email := d.email.getD ""
    communication_style := d.communication_style.getD ""
    relationship_stage := d.relationship_stage.getD ""
    satisfaction_score := d.satisfaction_score.getD (1/2)
    created_at := d.created_at.getD nowIso
    updated_at := now }

/-- `MERGE`-by-unique-key followed by `SET`: if a node with the key exists
it is overwritten in place, otherwise a node is created. -/
def mergeCustomer (g : List CustomerNode) (n : CustomerNode) : List CustomerNode :=
  if g.any (fun m => decide (m.customer_id = n.customer_id)) then
    g.map (fun m => if m.customer_id = n.customer_id then n else m)
  else g ++ [n]

/-- Effect of `GraphService.sync_customer_to_graph` on the customer nodes
(the method additionally invalidates the customer's graph caches and
returns `len(result) > 0`, which the claims about the node set do not
need). -/
def syncCustomerToGraph (g : List CustomerNode) (d : CustomerData)
    (nowIso : String) (now : Nat) : List CustomerNode :=
  mergeCustomer g (customerNodeOf d nowIso now)

/-! ## Graph projection of conversations (`GraphService.sync_conversation_to_graph`)

The method issues a sequence of parameterized upserts: one conversation
upsert, one message-plus-topic upsert per message whose `intent` is truthy,
and a resolution upsert when `conversation_data.get("status") == "resolved"
and conversation_data.get("resolution")` (Python truthiness: `None` and the
empty string are falsy).  The claims are about which upserts are issued, so
the projection is modelled as the list of issued writes. -/

/-- The `conversation_data` dict. -/
structure ConversationData where
  id : Nat
  customer_id : Nat
  topic : Option String := none
  status : Option String := none
  satisfaction_rating : Option ℚ := none
  resolution : Option String := none
  started_at : Option String := none
  deriving DecidableEq

/-- One entry of the `message_data` list. -/
structure MessageData where
  id : Nat
  content : Option String := none
  message_type : Option String := none
  intent : Option String := none
  sentiment : Option String := none
  deriving DecidableEq

/-- Python truthiness of an optional string: `None` and `""` are falsy. -/
def pyTruthy : Option String → Bool
  | none => false
  | some s => !s.isEmpty

/-- A parameterized upsert issued against the graph store. -/
inductive GraphWrite where
  /-- `MATCH (c:Customer …) MERGE (c)-[:HAD_CONVERSATION]->(conv:Conversation …) SET …` -/
  | conversationUpsert (customer_id conversation_id : Nat) (topic status : String)
      (satisfaction_rating : Option ℚ) (started_at : String)
  /-- `MERGE (conv)-[:CONTAINS_MESSAGE]->(msg:Message …) SET …` together with
  `MERGE (topic:Topic {name: $intent})` and the `DISCUSSED` edge. -/
  | messageUpsert (conversation_id message_id : Nat)
      (content message_type intent sentiment : String)
  /-- `MERGE (conv)-[:RESOLVED_WITH]->(r:Resolution {…})` -/
  | resolutionUpsert (conversation_id : Nat) (strategy outcome : String)
      (satisfaction : ℚ)
  deriving DecidableEq

/-- The writes issued by `sync_conversation_to_graph(conversation_data,
messages)`: conversation upsert, then one message upsert per message with a
truthy `intent` (content truncated to 200 characters), then the resolution
upsert (strategy truncated to 100 characters) iff the conversation's status
is `"resolved"` and its resolution string is truthy. -/
def syncConversationWrites (conv : ConversationData) (messages : List MessageData)
    (nowIso : String) : List GraphWrite :=
  .conversationUpsert conv.customer_id conv.id (conv.topic.getD "")
      (conv.status.getD "active") conv.satisfaction_rating (conv.started_at.getD nowIso)
    :: ((messages.filter (fun m => pyTruthy m.intent)).map (fun m =>
          .messageUpsert conv.id m.id ((m.content.getD "").take 200)
            (m.message_type.getD "user") (m.intent.getD "unknown")
            (m.sentiment.getD "neutral")))
    ++ (if conv.status = some "resolved" ∧ pyTruthy conv.resolution then
          [.resolutionUpsert conv.id ((conv.resolution.getD "").take 100) "resolved"
            (conv.satisfaction_rating.getD 3)]
        else [])

/-- Whether a write is the resolution upsert. -/
def isResolutionWrite : GraphWrite → Bool
  | .resolutionUpsert _ _ _ _ => true
  | _ => false

def hasResolutionWrite (ws : List GraphWrite) : Bool := ws.any isResolutionWrite

/-- Whether a write is a message-node upsert. -/
def isMessageWrite : GraphWrite → Bool
  | .messageUpsert _ _ _ _ _ _ => true
  | _ => false

/-- Number of `Message`-node upserts among a list of writes. -/
def countMessageWrites (ws : List GraphWrite) : Nat := ws.countP isMessageWrite

/-! ## Batched full sync (`ETLService.full_sync_customers` /
`full_sync_conversations`)

The relational store is modelled as the list of rows, so
`db.query(...).offset(o).limit(b).all()` is `(rows.drop o).take b` and
`count()` is `rows.length`.  The behaviour of the graph store on one record
is abstracted by an outcome function: `sync_*_to_graph` returned `True`,
returned `False`, or an exception was raised while building or syncing the
record (caught by the per-record `try`).  Reads issued against the
relational store are recorded in a trace, which the fail-fast and batching
claims are about. -/

/-- One relational `customers` row, with the fields
`_sync_customer_batch` reads. -/
structure CustomerRow where
  id : Nat
  name : Option String := none
  email : Option String := none
  communication_style : Option String := none
  relationship_stage : Option String := none
  satisfaction_score : Option ℚ := none
  created_at : Option String := none
  deriving DecidableEq

/-- The `customer_data` dict `_sync_customer_batch` builds from a row. -/
def customerDataOfRow (r : CustomerRow) : CustomerData :=
  { id := r.id
    name := r.name
    email := r.email
    communication_style := r.communication_style
    relationship_stage := r.relationship_stage
    satisfaction_score := r.satisfaction_score
    created_at := r.created_at }

/-- Outcome of projecting one record to the graph store. -/
inductive RecordOutcome where
  | ok
  | storeFailed
  | raised
  deriving DecidableEq

/-- A read issued against the relational store. -/
inductive ReadEvent where
  | countCustomers (total : Nat)
  | fetchCustomers (offset : Nat) (fetched : Nat)
  | countConversations (total : Nat)
  | fetchConversations (offset : Nat) (fetched : Nat)
  deriving DecidableEq

/-- The stats dict of `full_sync_customers` (timestamps and the derived
`success_rate` omitted). -/
structure CustomerSyncStats where
  total : Nat
  synced : Nat
  failed : Nat
  batchSize : Nat
  batches : Nat
  deriving DecidableEq

/-- Result of a full sync run: the stats, the relational reads issued, and
the error of the outer `except` branch (`none` when the run completed).
In this model relational reads are total, so the outer branch is never
taken; per-record graph faults are captured by `RecordOutcome`. -/
structure CustomerSyncResult where
  stats : CustomerSyncStats
  reads : List ReadEvent
  error : Option String
  deriving DecidableEq

/-- `_sync_customer_batch`: per-record `try`, `synced += 1` on `True`,
`failed += 1` on `False` or on a raised exception. -/
def syncCustomerBatch (outcome : CustomerRow → RecordOutcome)
    (batch : List CustomerRow) : Nat × Nat :=
  batch.foldl
    (fun acc r =>
      match outcome r with
      | .ok => (acc.1 + 1, acc.2)
      | .storeFailed => (acc.1, acc.2 + 1)
      | .raised => (acc.1, acc.2 + 1))
    (0, 0)

/-- The `while offset < total_customers` loop of `full_sync_customers`:
fetch the window, break on an empty window, otherwise accumulate the batch
results and advance `offset` by `batch_size`.  Structural fuel makes the
recursion total; `full_sync_customers` supplies `total + 1`, which is
sufficient fuel for every reachable iteration. -/
def fullSyncCustomersLoop (db : List CustomerRow) (outcome : CustomerRow → RecordOutcome)
    (bs : Nat) : Nat → Nat → CustomerSyncStats → List ReadEvent →
    CustomerSyncStats × List ReadEvent
  | 0, _, stats, reads => (stats, reads)
  | fuel + 1, offset, stats, reads =>
    if offset < db.length then
      let batch := (db.drop offset).take bs
      let reads' := reads ++ [.fetchCustomers offset batch.length]
      if batch.isEmpty then (stats, reads')
      else
        let res := syncCustomerBatch outcome batch
        fullSyncCustomersLoop db outcome bs fuel (offset + bs)
          { stats with
            synced := stats.synced + res.1
            failed := stats.failed + res.2
            batches := stats.batches + 1 }
          reads'
    else (stats, reads)

/-- `ETLService.full_sync_customers(batch_size)`. -/
def fullSyncCustomers (db : List CustomerRow) (outcome : CustomerRow → RecordOutcome)
    (bs : Nat) : CustomerSyncResult :=
  { stats := (fullSyncCustomersLoop db outcome bs (db.length + 1) 0
      { total := db.length, synced := 0, failed := 0, batchSize := bs, batches := 0 }
      [.countCustomers db.length]).1
    reads := (fullSyncCustomersLoop db outcome bs (db.length + 1) 0
      { total := db.length, synced := 0, failed := 0, batchSize := bs, batches := 0 }
      [.countCustomers db.length]).2
    error := none }

/-- One relational conversation together with the messages
`db.query(Message).filter(conversation_id == conv.id)` fetches for it. -/
structure ConversationRow where
  data : ConversationData
  messages : List MessageData
  deriving DecidableEq

/-- The stats dict of `full_sync_conversations` (timestamps omitted; the
source tracks no batch counter here). -/
structure ConversationSyncStats where
  total : Nat
  syncedConversations : Nat
  failedConversations : Nat
  syncedMessages : Nat
  batchSize : Nat
  deriving DecidableEq

structure ConversationSyncResult where
  stats : ConversationSyncStats
  reads : List ReadEvent
  error : Option String
  deriving DecidableEq

/-- The inner `for conv in conversations` loop: on success
`synced_conversations += 1` and `synced_messages += len(messages)`; on a
`False` return or a raised exception `failed_conversations += 1`. -/
def syncConversationBatch (outcome : ConversationRow → RecordOutcome)
    (batch : List ConversationRow) (stats : ConversationSyncStats) :
    ConversationSyncStats :=
  batch.foldl
    (fun st c =>
      match outcome c with
      | .ok =>
        { st with
          syncedConversations := st.syncedConversations + 1
          syncedMessages := st.syncedMessages + c.messages.length }
      | .storeFailed => { st with failedConversations := st.failedConversations + 1 }
      | .raised => { st with failedConversations := st.failedConversations + 1 })
    stats

/-- The `while offset < total_conversations` loop of
`full_sync_conversations`. -/
def fullSyncConversationsLoop (db : List ConversationRow)
    (outcome : ConversationRow → RecordOutcome) (bs : Nat) :
    Nat → Nat → ConversationSyncStats → List ReadEvent →
    ConversationSyncStats × List ReadEvent
  | 0, _, stats, reads => (stats, reads)
  | fuel + 1, offset, stats, reads =>
    if offset < db.length then
      let batch := (db.drop offset).take bs
      let reads' := reads ++ [.fetchConversations offset batch.length]
      if batch.isEmpty then (stats, reads')
      else
        fullSyncConversationsLoop db outcome bs fuel (offset + bs)
          (syncConversationBatch outcome batch stats) reads'
    else (stats, reads)

/-- `ETLService.full_sync_conversations(batch_size)`. -/
def fullSyncConversations (db : List ConversationRow)
    (outcome : ConversationRow → RecordOutcome) (bs : Nat) : ConversationSyncResult :=
  { stats := (fullSyncConversationsLoop db outcome bs (db.length + 1) 0
      { total := db.length, syncedConversations := 0, failedConversations := 0
        syncedMessages := 0, batchSize := bs }
      [.countConversations db.length]).1
    reads := (fullSyncConversationsLoop db outcome bs (db.length + 1) 0
      { total := db.length, syncedConversations := 0, failedConversations := 0
        syncedMessages := 0, batchSize := bs }
      [.countConversations db.length]).2
    error := none }

/-- The batch window starting at offset `k * bs`
(`db.query(...).offset(k * bs).limit(bs)`). -/
def windowAt (db : List CustomerRow) (bs k : Nat) : List CustomerRow :=
  (db.drop (k * bs)).take bs

/-- Reference description of the fetch reads the window loop issues:
`(offset, fetched
length)` pairs in increasing offset order.  Defined on the
counts alone so that concrete instances evaluate. -/
def chunkMeta (bs : Nat) : Nat → Nat → Nat → List (Nat × Nat)
  | 0, _, _ => []
  | fuel + 1, offset, total =>
    if offset < total then
      (offset, min bs (total - offset)) :: chunkMeta bs fuel (offset + bs) total
    else []

/-! ## Integrity validation (`ETLService.validate_sync_integrity`)

For each entity kind the source compares the relational count with the
graph count: with a positive relational count it stores
`round((neo4j_count / pg_count) * 100, 2)` and appends a full-sync
recommendation when the unrounded percentage is below 95; with a zero
relational count it stores `100.0` and no recommendation.  Floats are
modelled as rationals and `round(x, 2)` as rounding to two decimal places;
the recommendation strings are abstracted to the entity kind that each one
names. -/

inductive EntityKind where
  | customers
  | conversations
  | messages
  deriving DecidableEq

/-- The iteration order `["customers", "conversations", "messages"]`. -/
def entityOrder : List EntityKind := [.customers, .conversations, .messages]

/-- `round(q, 2)`: round to two decimal places. -/
def round2 (q : ℚ) : ℚ := (round (q * 100) : ℚ) / 100

/-- The unrounded `(neo4j_count / pg_count) * 100`. -/
def rawPercentage (pg neo : Nat) : ℚ := ((neo : ℚ) / (pg : ℚ)) * 100

structure IntegrityReport where
  pgCounts : EntityKind → Nat
  neo4jCounts : EntityKind → Nat
  syncPercentages : EntityKind → ℚ
  recommendations : List EntityKind
  deriving Inhabited

/-- The per-entity loop of `validate_sync_integrity`, given the relational
and graph counts. -/
def validateSyncIntegrity (pg neo : EntityKind → Nat) : IntegrityReport :=
  { pgCounts := pg
    neo4jCounts := neo
    syncPercentages := fun e =>
      if 0 < pg e then round2 (rawPercentage (pg e) (neo e)) else 100
    recommendations :=
      entityOrder.filter (fun e =>
        decide (0 < pg e) && decide (rawPercentage (pg e) (neo e) < 95)) }

/-! ## Sync checkpoints (`schedule_automatic_sync`, `full_system_sync`)

`schedule_automatic_sync` runs `incremental_sync()` and then stores the
`last_incremental_sync` timestamp with `self.cache.redis.set(...)` — the
store happens before the body inspects the result for an `"error"` key,
which only selects a log line.  `full_system_sync` runs the three component
syncs (each of which catches its own exceptions and reports failure through
an `"error"` key), computes `overall_success`, and stores `last_full_sync`
unconditionally before returning. -/

def lastIncrementalSyncKey : Key := lit "last_incremental_sync"

def lastFullSyncKey : Key := lit "last_full_sync"

/-- A sync-run result as its callers see it: either a report, or a caught
error surfaced through the `"error"` key. -/
structure RunResult where
  error : Option String
  deriving DecidableEq

/-- One iteration of the `while True` body of `schedule_automatic_sync`
after the sleep, given the result `incremental_sync()` returned: the
checkpoint write, and the boolean telling which log branch
(`"error" not in result`) runs afterwards. -/
def scheduleSyncIteration (result : RunResult) (s : CacheState String)
    (nowIso : String) (now : Nat) : CacheState String × Bool :=
  let s' := redisSet s lastIncrementalSyncKey nowIso (some 86400) now
  (s', result.error.isNone)

/-- `full_system_sync`, given the results of the three component runs:
`overall_success` is true iff no component reported an error, and the
`last_full_sync` checkpoint is stored before returning. -/
def fullSystemSync (resCustomers resConversations resKnowledge : RunResult)
    (s : CacheState String) (nowIso : String) (now : Nat) :
    (Bool × CacheState String) :=
  let overall := resCustomers.error.isNone && resConversations.error.isNone
    && resKnowledge.error.isNone
  let s' := redisSet s lastFullSyncKey nowIso (some 86400) now
  (overall, s')

/-! ## Concrete fixtures used by witnesses -/

/-- A concrete `customer_data` payload. -/
def dFix : CustomerData :=
  { id := 1, name := some "Ada Lovelace", email := some "ada@example.com"
    communication_style := some "formal", relationship_stage := some "established" }

/-- A concrete cache state: two graph keys for customer 42 and one for
customer 7. -/
def s0Fix : CacheState Nat := fun k =>
  if k = graphCacheKey (lit "similar_customers") (lit "42") then some { value := 1, expiresAt := none }
  else if k = graphCacheKey (lit "success_patterns") (lit "42") then some { value := 2, expiresAt := none }
  else if k = graphCacheKey (lit "similar_customers") (lit "7") then some { value := 3, expiresAt := none }
  else none

/-- A concrete graph-results cache key. -/
def k7Fix : Key := lit "graph:similar_customers:42"

/-- A concrete cache state holding `k7Fix` with a one-hour TTL set at
instant 0. -/
def s7Fix : CacheState Nat := redisSet (emptyCache Nat) k7Fix 42 (some 3600) 0

/-- Concrete later operations not touching `k7Fix`. -/
def ops7Fix : List (CacheOp Nat) := [.setOp (lit "customer:session:abc") 7 (some 3600) 5]

/-- A concrete customer row. -/
def rowFix : CustomerRow := { id := 0 }

/-- Five concrete customer rows. -/
def dbFix5 : List CustomerRow := [{ id := 1 }, { id := 2 }, { id := 3 }, { id := 4 }, { id := 5 }]

/-- Four concrete customer rows. -/
def dbFix4 : List CustomerRow := [{ id := 1 }, { id := 2 }, { id := 3 }, { id := 4 }]

/-- A projection outcome raising exactly on the rows of the second window
of `dbFix4` at batch size 2 (ids 3 and 4). -/
def outcomeFix : CustomerRow → RecordOutcome := fun r =>
  if 3 ≤ r.id then .raised else .ok

/-- One concrete conversation with two fetched messages, only one of which
carries an intent. -/
def convDbFix : List ConversationRow :=
  [{ data := { id := 9, customer_id := 1 }
     messages := [{ id := 1, intent := some "billing" }, { id := 2 }] }]

/-! # Lemmas -/

/-! ## Glob matching -/

theorem globMatch_star_iff (p : List Char) (s : List Char) :
    globMatch ('*' :: p) s = true ↔ ∃ t, t <:+ s ∧ globMatch p t = true := by
  simp [globMatch, List.any_eq_true, List.mem_tails]

theorem globMatch_lit_cons (a : Char) (h : a ≠ '*') (p : List Char) :
    ∀ s, globMatch (a :: p) s = true ↔
      ∃ s', s = a :: s' ∧ globMatch p s' = true := by
  intro s
  cases s with
  | nil => simp [globMatch, h]
  | cons c s' =>
    simp only [globMatch, if_neg h, Bool.and_eq_true, decide_eq_true_eq]
    constructor
    · rintro ⟨rfl, hm⟩; exact ⟨s', rfl, hm⟩
    · rintro ⟨t, ht, hm⟩
      cases ht
      exact ⟨rfl, hm⟩

theorem globMatch_append_iff (pre p : List Char) (hpre : ∀ c ∈ pre, c ≠ '*') :
    ∀ s, globMatch (pre ++ p) s = true ↔
      ∃ s', s = pre ++ s' ∧ globMatch p s' = true := by
  induction pre with
  | nil => intro s; simp
  | cons a pre ih =>
    intro s
    have ha : a ≠ '*' := hpre a (List.mem_cons_self a pre)
    have ih' := ih (fun c hc => hpre c (List.mem_cons_of_mem a hc))
    rw [List.cons_append, globMatch_lit_cons a ha]
    constructor
    · rintro ⟨s', rfl, hm⟩
      obtain ⟨s'', rfl, hm'⟩ := (ih' s').mp hm
      exact ⟨s'', rfl, hm'⟩
    · rintro ⟨s', rfl, hm⟩
      exact ⟨pre ++ s', rfl, (ih' (pre ++ s')).mpr ⟨s', rfl, hm⟩⟩

theorem globMatch_starFree_iff (p : List Char) (hp : ∀ c ∈ p, c ≠ '*') :
    ∀ s, globMatch p s = true ↔ p = s := by
  induction p with
  | nil =>
    intro s
    cases s <;> simp [globMatch]
  | cons a p ih =>
    intro s
    have ha : a ≠ '*' := hp a (List.mem_cons_self a p)
    rw [globMatch_lit_cons a ha]
    constructor
    · rintro ⟨s', rfl, hm⟩
      rw [(ih (fun c hc => hp c (List.mem_cons_of_mem a hc)) s').mp hm]
    · rintro rfl
      exact ⟨p, rfl, (ih (fun c hc => hp c (List.mem_cons_of_mem a hc)) p).mpr rfl⟩

theorem digit_ne_star {c : Char} (h : c.isDigit = true) : c ≠ '*' := by
  intro hc; subst hc; simp at h

/-- Decimal digit strings separated from an arbitrary head by a colon:
if `xs ++ ":"` is a prefix of `ys ++ ":" ++ zs` and `xs`, `ys` are both
all-digit, then `xs = ys`. -/
theorem digits_colon_prefix (xs : List Char) :
    ∀ ys zs, (∀ c ∈ xs, c.isDigit = true) → (∀ c ∈ ys, c.isDigit = true) →
      (xs ++ [':']) <+: (ys ++ ':' :: zs) → xs = ys := by
  induction xs with
  | nil =>
    intro ys zs _ hy hpre
    cases ys with
    | nil => rfl
    | cons y ys =>
      exfalso
      obtain ⟨t, ht⟩ := hpre
      simp only [List.nil_append, List.cons_append, List.cons.injEq] at ht
      have hy' := hy y (List.mem_cons_self y ys)
      rw [← ht.1] at hy'
      exact absurd hy' (by decide)
  | cons x xs ih =>
    intro ys zs hx hy hpre
    cases ys with
    | nil =>
      exfalso
      obtain ⟨t, ht⟩ := hpre
      simp only [List.nil_append, List.cons_append, List.cons.injEq] at ht
      have hx' := hx x (List.mem_cons_self x xs)
      rw [ht.1] at hx'
      exact absurd hx' (by decide)
    | cons y ys =>
      obtain ⟨t, ht⟩ := hpre
      simp only [List.cons_append, List.cons.injEq] at ht
      obtain ⟨hxy, ht⟩ := ht
      have hrest : (xs ++ [':']) <+: (ys ++ ':' :: zs) := ⟨t, ht⟩
      rw [hxy, ih ys zs (fun c hc => hx c (List.mem_cons_of_mem _ hc))
        (fun c hc => hy c (List.mem_cons_of_mem _ hc)) hrest]

/-- Characterization of the glob `f"graph:*:{id}"` for an all-digit id:
it matches exactly the keys of the form `"graph:" ++ rest` where `rest`
ends in `":" ++ id`. -/
theorem graphGlob_match_iff (d k : List Char) (hd : ∀ c ∈ d, c.isDigit = true) :
    globMatch (graphInvalidateGlob d) k = true ↔
      ∃ rest, k = lit "graph:" ++ rest ∧ (':' :: d) <:+ rest := by
  have hshape : graphInvalidateGlob d = lit "graph:" ++ ('*' :: ':' :: d) := rfl
  have hpre : ∀ c ∈ lit "graph:", c ≠ '*' := by decide
  have hfree : ∀ c ∈ (':' :: d), c ≠ '*' := by
    intro c hc
    rcases List.mem_cons.mp hc with h | h
    · subst h; decide
    · exact digit_ne_star (hd c h)
  rw [hshape, globMatch_append_iff (lit "graph:") ('*' :: ':' :: d) hpre k]
  constructor
  · rintro ⟨rest, rfl, hm⟩
    obtain ⟨t, hsuf, hmt⟩ := (globMatch_star_iff (':' :: d) rest).mp hm
    rw [← (globMatch_starFree_iff (':' :: d) hfree t).mp hmt] at hsuf
    exact ⟨rest, rfl, hsuf⟩
  · rintro ⟨rest, rfl, hsuf⟩
    exact ⟨rest, rfl, (globMatch_star_iff (':' :: d) rest).mpr
      ⟨':' :: d, hsuf, (globMatch_starFree_iff (':' :: d) hfree (':' :: d)).mpr rfl⟩⟩

/-! ## Cache operations -/

theorem applyCacheOp_untouched {α : Type} (s : CacheState α) (op : CacheOp α) (k : Key)
    (h : touches k op = false) : applyCacheOp s op k = s k := by
  cases op with
  | setOp k' v e t =>
    have hne : ¬ k = k' := by
      simp only [touches, decide_eq_false_iff_not] at h
      exact fun hh => h hh.symm
    simp [applyCacheOp, redisSet, hne]
  | delOp k' =>
    have hne : ¬ k = k' := by
      simp only [touches, decide_eq_false_iff_not] at h
      exact fun hh => h hh.symm
    simp [applyCacheOp, redisDelete, hne]
  | invOp p =>
    simp only [touches] at h
    simp [applyCacheOp, redisInvalidatePattern, h]

theorem applyCacheOps_untouched {α : Type} (ops : List (CacheOp α)) :
    ∀ s : CacheState α, ∀ k : Key, (∀ op ∈ ops, touches k op = false) →
      applyCacheOps s ops k = s k := by
  induction ops with
  | nil => intro s k _; rfl
  | cons op ops ih =>
    intro s k h
    have h1 : touches k op = false := h op (List.mem_cons_self op ops)
    have h2 := ih (applyCacheOp s op) k (fun o ho => h o (List.mem_cons_of_mem op ho))
    calc applyCacheOps s (op :: ops) k
        = applyCacheOps (applyCacheOp s op) ops k := rfl
      _ = applyCacheOp s op k := h2
      _ = s k := applyCacheOp_untouched s op k h1

theorem redisSet_self {α : Type} (s : CacheState α) (k : Key) (v : α) (ttl t : Nat)
    (httl : ttl ≠ 0) :
    redisSet s k v (some ttl) t k = some { value := v, expiresAt := some (t + ttl) } := by
  simp [redisSet, httl]

/-! ## Customer MERGE -/

theorem countP_customerId_le_one (g : List CustomerNode) (a : Nat)
    (h : (g.map CustomerNode.customer_id).Nodup) :
    g.countP (fun m => decide (m.customer_id = a)) ≤ 1 := by
  induction g with
  | nil => simp
  | cons m g ih =>
    rw [List.map_cons, List.nodup_cons] at h
    rw [List.countP_cons]
    by_cases hm : m.customer_id = a
    · have hz : g.countP (fun m => decide (m.customer_id = a)) = 0 := by
        rw [List.countP_eq_zero]
        intro x hx
        simp only [decide_eq_true_eq]
        intro hxa
        exact h.1 (List.mem_map.mpr ⟨x, hx, by rw [hxa, hm]⟩)
      simp [hz, hm]
    · simp only [hm, decide_False, if_neg]
      simpa using ih h.2

theorem mergeCustomer_mem_eq (g : List CustomerNode) (n : CustomerNode) :
    ∀ m ∈ mergeCustomer g n, m.customer_id = n.customer_id → m = n := by
  intro m hm hid
  unfold mergeCustomer at hm
  split at hm
  · obtain ⟨x, _, hx⟩ := List.mem_map.mp hm
    by_cases hxn : x.customer_id = n.customer_id
    · rw [if_pos hxn] at hx; exact hx.symm
    · rw [if_neg hxn] at hx; rw [hx] at hxn; exact absurd hid hxn
  · rename_i hany
    rcases List.mem_append.mp hm with h | h
    · exact absurd (List.any_eq_true.mpr ⟨m, h, by simp [hid]⟩) hany
    · simpa using h

theorem mergeCustomer_countP (g : List CustomerNode) (n : CustomerNode)
    (h : (g.map CustomerNode.customer_id).Nodup) :
    (mergeCustomer g n).countP (fun m => decide (m.customer_id = n.customer_id)) = 1 := by
  unfold mergeCustomer
  split
  · rename_i hany
    have hmap : (g.map (fun m => if m.customer_id = n.customer_id then n else m)).countP
        (fun m => decide (m.customer_id = n.customer_id))
        = g.countP (fun m => decide (m.customer_id = n.customer_id)) := by
      rw [List.countP_map]
      apply List.countP_congr
      intro x _
      by_cases hx : x.customer_id = n.customer_id <;> simp [hx]
    obtain ⟨x, hxg, hx⟩ := List.any_eq_true.mp hany
    have hpos : 0 < g.countP (fun m => decide (m.customer_id = n.customer_id)) :=
      List.countP_pos_iff.mpr ⟨x, hxg, hx⟩
    have hle := countP_customerId_le_one g n.customer_id h
    omega
  · rename_i hany
    have hz : g.countP (fun m => decide (m.customer_id = n.customer_id)) = 0 := by
      rw [List.countP_eq_zero]
      intro x hx
      intro hpx
      exact hany (List.any_eq_true.mpr ⟨x, hx, hpx⟩)
    rw [List.countP_append, hz]
    simp

theorem mergeCustomer_length (g : List CustomerNode) (n : CustomerNode) :
    (mergeCustomer g n).length
      = if g.any (fun m => decide (m.customer_id = n.customer_id)) then g.length
        else g.length + 1 := by
  unfold mergeCustomer
  split <;> rename_i hany <;> simp [hany]

theorem mergeCustomer_any_self (g : List CustomerNode) (n : CustomerNode) :
    (mergeCustomer g n).any (fun m => decide (m.customer_id = n.customer_id)) = true := by
  unfold mergeCustomer
  split
  · rename_i hany
    obtain ⟨x, hxg, hx⟩ := List.any_eq_true.mp hany
    refine List.any_eq_true.mpr ⟨n, ?_, by simp⟩
    refine List.mem_map.mpr ⟨x, hxg, ?_⟩
    rw [if_pos (by simpa using hx)]
  · exact List.any_eq_true.mpr ⟨n, List.mem_append.mpr (Or.inr (by simp)), by simp⟩

theorem mergeCustomer_nodup (g : List CustomerNode) (n : CustomerNode)
    (h : (g.map CustomerNode.customer_id).Nodup) :
    ((mergeCustomer g n).map CustomerNode.customer_id).Nodup := by
  unfold mergeCustomer
  split
  · rename_i hany
    have hmap : (g.map (fun m => if m.customer_id = n.customer_id then n else m)).map
        CustomerNode.customer_id = g.map CustomerNode.customer_id := by
      rw [List.map_map]
      apply List.map_congr_left
      intro x _
      by_cases hx : x.customer_id = n.customer_id <;> simp [hx]
    rw [hmap]; exact h
  · rename_i hany
    rw [List.map_append]
    rw [List.nodup_append]
    refine ⟨h, by simp, ?_⟩
    intro a ha hb
    simp only [List.map_cons, List.map_nil, List.mem_singleton] at hb
    subst hb
    obtain ⟨x, hxg, hx⟩ := List.mem_map.mp ha
    exact hany (List.any_eq_true.mpr ⟨x, hxg, by simpa using hx⟩)

/-! ## Full-sync loops -/

theorem syncCustomerBatch_foldl (outcome : CustomerRow → RecordOutcome) :
    ∀ (batch : List CustomerRow) (acc : Nat × Nat),
      batch.foldl
        (fun acc r =>
          match outcome r with
          | .ok => (acc.1 + 1, acc.2)
          | .storeFailed => (acc.1, acc.2 + 1)
          | .raised => (acc.1, acc.2 + 1)) acc
      = (acc.1 + batch.countP (fun r => decide (outcome r = .ok)),
         acc.2 + batch.countP (fun r => !decide (outcome r = .ok))) := by
  intro batch
  induction batch with
  | nil => intro acc; simp
  | cons r batch ih =>
    intro acc
    rw [List.foldl_cons, ih]
    cases h : outcome r <;>
      simp [h, List.countP_cons, Prod.ext_iff] <;> omega

theorem syncCustomerBatch_spec (outcome : CustomerRow → RecordOutcome)
    (batch : List CustomerRow) :
    syncCustomerBatch outcome batch
      = (batch.countP (fun r => decide (outcome r = .ok)),
         batch.countP (fun r => !decide (outcome r = .ok))) := by
  unfold syncCustomerBatch
  rw [syncCustomerBatch_foldl]
  simp

theorem fullSyncCustomersLoop_spec (db : List CustomerRow)
    (outcome : CustomerRow → RecordOutcome) (bs : Nat) (hbs : 0 < bs) :
    ∀ fuel offset stats reads, db.length ≤ offset + fuel →
      fullSyncCustomersLoop db outcome bs fuel offset stats reads
        = ({ stats with
             synced := stats.synced + (db.drop offset).countP (fun r => decide (outcome r = .ok))
             failed := stats.failed + (db.drop offset).countP (fun r => !decide (outcome r = .ok))
             batches := stats.batches + (chunkMeta bs fuel offset db.length).length },
           reads ++ (chunkMeta bs fuel offset db.length).map
             (fun m => ReadEvent.fetchCustomers m.1 m.2)) := by
  intro fuel
  induction fuel with
  | zero =>
    intro offset stats reads h
    have hdrop : db.drop offset = [] := List.drop_eq_nil_of_le (by omega)
    simp [fullSyncCustomersLoop, chunkMeta, hdrop]
  | succ fuel ih =>
    intro offset stats reads h
    by_cases hoff : offset < db.length
    · have hlen : ((db.drop offset).take bs).length = min bs (db.length - offset) := by
        rw [List.length_take, List.length_drop]
      have hpos : 0 < min bs (db.length - offset) := by omega
      have hne : ((db.drop offset).take bs).isEmpty = false := by
        cases hb : ((db.drop offset).take bs).isEmpty
        · rfl
        · rw [List.isEmpty_iff] at hb
          rw [hb] at hlen
          simp only [List.length_nil] at hlen
          omega
      have hsplit : db.drop offset = (db.drop offset).take bs ++ db.drop (offset + bs) := by
        conv_lhs => rw [← List.take_append_drop bs (db.drop offset)]
        rw [List.drop_drop]
      have hcntOk : (db.drop offset).countP (fun r => decide (outcome r = .ok))
          = ((db.drop offset).take bs).countP (fun r => decide (outcome r = .ok))
            + (db.drop (offset + bs)).countP (fun r => decide (outcome r = .ok)) := by
        conv_lhs => rw [hsplit]
        rw [List.countP_append]
      have hcntBad : (db.drop offset).countP (fun r => !decide (outcome r = .ok))
          = ((db.drop offset).take bs).countP (fun r => !decide (outcome r = .ok))
            + (db.drop (offset + bs)).countP (fun r => !decide (outcome r = .ok)) := by
        conv_lhs => rw [hsplit]
        rw [List.countP_append]
      have hchunk : chunkMeta bs (fuel + 1) offset db.length
          = (offset, min bs (db.length - offset)) :: chunkMeta bs fuel (offset + bs) db.length := by
        simp [chunkMeta, hoff]
      simp only [fullSyncCustomersLoop, hoff, if_true, hne, Bool.false_eq_true, if_false,
        syncCustomerBatch_spec]
      rw [ih (offset + bs) _ _ (by omega)]
      rw [hchunk, hcntOk, hcntBad, hlen]
      simp [List.append_assoc, Nat.add_assoc]
      omega
    · have hdrop : db.drop offset = [] := List.drop_eq_nil_of_le (by omega)
      have hchunk : chunkMeta bs (fuel + 1) offset db.length = [] := by
        simp [chunkMeta, hoff]
      simp [fullSyncCustomersLoop, hoff, hdrop, hchunk]

theorem fullSyncCustomers_spec (db : List CustomerRow)
    (outcome : CustomerRow → RecordOutcome) (bs : Nat) (hbs : 0 < bs) :
    fullSyncCustomers db outcome bs
      = { stats := { total := db.length
                     synced := db.countP (fun r => decide (outcome r = .ok))
                     failed := db.countP (fun r => !decide (outcome r = .ok))
                     batchSize := bs
                     batches := (chunkMeta bs (db.length + 1) 0 db.length).length }
          reads := ReadEvent.countCustomers db.length
            :: (chunkMeta bs (db.length + 1) 0 db.length).map
              (fun m => ReadEvent.fetchCustomers m.1 m.2)
          error := none } := by
  unfold fullSyncCustomers
  rw [fullSyncCustomersLoop_spec db outcome bs hbs (db.length + 1) 0 _ _ (by omega)]
  simp

theorem syncConversationBatch_spec (outcome : ConversationRow → RecordOutcome) :
    ∀ (batch : List ConversationRow) (stats : ConversationSyncStats),
      syncConversationBatch outcome batch stats
        = { stats with
            syncedConversations := stats.syncedConversations
              + batch.countP (fun c => decide (outcome c = .ok))
            failedConversations := stats.failedConversations
              + batch.countP (fun c => !decide (outcome c = .ok))
            syncedMessages := stats.syncedMessages
              + ((batch.filter (fun c => decide (outcome c = .ok))).map
                  (fun c => c.messages.length)).sum } := by
  intro batch
  induction batch with
  | nil => intro stats; simp [syncConversationBatch]
  | cons c batch ih =>
    intro stats
    have hstep : syncConversationBatch outcome (c :: batch) stats
        = syncConversationBatch outcome batch
            (match outcome c with
             | .ok =>
               { stats with
                 syncedConversations := stats.syncedConversations + 1
                 syncedMessages := stats.syncedMessages + c.messages.length }
             | .storeFailed =>
               { stats with failedConversations := stats.failedConversations + 1 }
             | .raised =>
               { stats with failedConversations := stats.failedConversations + 1 }) := rfl
    rw [hstep, ih]
    cases h : outcome c <;>
      obtain ⟨t0, s0, f0, m0, b0⟩ := stats <;>
      simp [h, List.countP_cons, List.filter_cons, ConversationSyncStats.mk.injEq] <;>
      omega

theorem fullSyncConversationsLoop_spec (db : List ConversationRow)
    (outcome : ConversationRow → RecordOutcome) (bs : Nat) (hbs : 0 < bs) :
    ∀ fuel offset stats reads, db.length ≤ offset + fuel →
      (fullSyncConversationsLoop db outcome bs fuel offset stats reads).1
        = { stats with
            syncedConversations := stats.syncedConversations
              + (db.drop offset).countP (fun c => decide (outcome c = .ok))
            failedConversations := stats.failedConversations
              + (db.drop offset).countP (fun c => !decide (outcome c = .ok))
            syncedMessages := stats.syncedMessages
              + (((db.drop offset).filter (fun c => decide (outcome c = .ok))).map
                  (fun c => c.messages.length)).sum } := by
  intro fuel
  induction fuel with
  | zero =>
    intro offset stats reads h
    have hdrop : db.drop offset = [] := List.drop_eq_nil_of_le (by omega)
    simp [fullSyncConversationsLoop, hdrop]
  | succ fuel ih =>
    intro offset stats reads h
    by_cases hoff : offset < db.length
    · have hlen : ((db.drop offset).take bs).length = min bs (db.length - offset) := by
        rw [List.length_take, List.length_drop]
      have hpos : 0 < min bs (db.length - offset) := by omega
      have hne : ((db.drop offset).take bs).isEmpty = false := by
        cases hb : ((db.drop offset).take bs).isEmpty
        · rfl
        · rw [List.isEmpty_iff] at hb
          rw [hb] at hlen
          simp only [List.length_nil] at hlen
          omega
      have hsplit : db.drop offset = (db.drop offset).take bs ++ db.drop (offset + bs) := by
        conv_lhs => rw [← List.take_append_drop bs (db.drop offset)]
        rw [List.drop_drop]
      simp only [fullSyncConversationsLoop, hoff, if_true, hne, Bool.false_eq_true, if_false]
      rw [ih (offset + bs) _ _ (by omega)]
      rw [syncConversationBatch_spec]
      obtain ⟨t0, s0, f0, m0, b0⟩ := stats
      conv_rhs => rw [hsplit]
      simp only [List.countP_append, List.filter_append, List.map_append, List.sum_append,
        ConversationSyncStats.mk.injEq, true_and, and_true]
      refine ⟨by omega, by omega, by omega⟩
    · have hdrop : db.drop offset = [] := List.drop_eq_nil_of_le (by omega)
      simp [fullSyncConversationsLoop, hoff, hdrop]

theorem fullSyncConversations_spec (db : List ConversationRow)
    (outcome : ConversationRow → RecordOutcome) (bs : Nat) (hbs : 0 < bs) :
    (fullSyncConversations db outcome bs).stats
      = { total := db.length
          syncedConversations := db.countP (fun c => decide (outcome c = .ok))
          failedConversations := db.countP (fun c => !decide (outcome c = .ok))
          syncedMessages := ((db.filter (fun c => decide (outcome c = .ok))).map
            (fun c => c.messages.length)).sum
          batchSize := bs } := by
  unfold fullSyncConversations
  rw [fullSyncConversationsLoop_spec db outcome bs hbs (db.length + 1) 0 _ _ (by omega)]
  simp

/-! ## Python truthiness -/

theorem pyTruthy_iff (o : Option String) :
    pyTruthy o = true ↔ ∃ r, o = some r ∧ r ≠ "" := by
  cases o with
  | none => simp [pyTruthy]
  | some r =>
    simp only [pyTruthy, Bool.not_eq_true', Option.some.injEq]
    constructor
    · intro h
      refine ⟨r, rfl, ?_⟩
      intro hre
      rw [hre] at h
      exact absurd h (by decide)
    · rintro ⟨r', hr', hne⟩
      subst hr'
      cases he : r.isEmpty
      · rfl
      · exact absurd ((String.isEmpty_iff r).mp he) hne

/-! # Claims -/

/-- C7: for every key `k` and (JSON-serializable) value `v`, after a
successful `set(k, v, ttl)` — and any later operations that do not set,
delete or pattern-invalidate `k` — `get(k)` returns `v` at every instant
before the TTL elapses; after the TTL elapses `get(k)` returns none, and
after a `delete(k)` or an invalidation whose pattern matches `k`, `get(k)`
returns none. -/
theorem cache_get_set_lifecycle {α : Type} (s : CacheState α) (k : Key) (v : α)
    (ttl t t' : Nat) (ops : List (CacheOp α))
    (httl : 0 < ttl) (hops : ∀ op ∈ ops, touches k op = false) :
    (t' < t + ttl →
      redisGet (applyCacheOps (redisSet s k v (some ttl) t) ops) k t' = some v)
    ∧ (t + ttl ≤ t' →
      redisGet (applyCacheOps (redisSet s k v (some ttl) t) ops) k t' = none)
    ∧ redisGet (redisDelete (applyCacheOps (redisSet s k v (some ttl) t) ops) k) k t' = none
    ∧ (∀ p, globMatch p k = true →
      redisGet (redisInvalidatePattern (applyCacheOps (redisSet s k v (some ttl) t) ops) p) k t' = none) := by
  have hk : applyCacheOps (redisSet s k v (some ttl) t) ops k
      = some { value := v, expiresAt := some (t + ttl) } := by
    rw [applyCacheOps_untouched ops _ k hops]
    exact redisSet_self s k v ttl t (Nat.pos_iff_ne_zero.mp httl)
  refine ⟨fun h => ?_, fun h => ?_, ?_, fun p hp => ?_⟩
  · simp [redisGet, hk, h]
  · simp [redisGet, hk, Nat.not_lt.mpr h]
  · simp [redisGet, redisDelete]
  · simp [redisGet, redisInvalidatePattern, hp]

theorem cache_get_set_lifecycle_witness :
    0 < 3600
    ∧ (∀ op ∈ ops7Fix, touches k7Fix op = false)
    ∧ redisGet (applyCacheOps (redisSet (emptyCache Nat) k7Fix 42 (some 3600) 0) ops7Fix) k7Fix 10 = some 42
    ∧ redisGet (redisDelete (applyCacheOps (redisSet (emptyCache Nat) k7Fix 42 (some 3600) 0) ops7Fix) k7Fix) k7Fix 10 = none :=
  ⟨by decide, by decide,
    (cache_get_set_lifecycle (emptyCache Nat) k7Fix 42 3600 0 10 ops7Fix
      (by decide) (by decide)).1 (by decide),
    (cache_get_set_lifecycle (emptyCache Nat) k7Fix 42 3600 0 10 ops7Fix
      (by decide) (by decide)).2.2.1⟩

/-- C8: invalidating the pattern `graph:*:{id}` deletes every cache key of
the form `graph:{query_type}:{id}` for that customer id, leaves every
graph key of a different customer id unchanged, and leaves every key
outside the `graph:` namespace unchanged. -/
theorem graph_cache_invalidation_fanout {α : Type} (s : CacheState α) (d : List Char)
    (hd : ∀ c ∈ d, c.isDigit = true) :
    (∀ qt, invalidateCustomerGraphCache s d (graphCacheKey qt d) = none)
    ∧ (∀ qt2 d2, (∀ c ∈ d2, c.isDigit = true) → d2 ≠ d →
        invalidateCustomerGraphCache s d (graphCacheKey qt2 d2) = s (graphCacheKey qt2 d2))
    ∧ (∀ k, ¬ lit "graph:" <+: k → invalidateCustomerGraphCache s d k = s k) := by
  refine ⟨fun qt => ?_, fun qt2 d2 hd2 hne => ?_, fun k hk => ?_⟩
  · have hm : globMatch (graphInvalidateGlob d) (graphCacheKey qt d) = true := by
      rw [graphGlob_match_iff d _ hd]
      refine ⟨qt ++ ':' :: d, ?_, ⟨qt, rfl⟩⟩
      simp [graphCacheKey, List.append_assoc]
    simp [invalidateCustomerGraphCache, redisInvalidatePattern, hm]
  · have hm : globMatch (graphInvalidateGlob d) (graphCacheKey qt2 d2) = false := by
      cases hglob : globMatch (graphInvalidateGlob d) (graphCacheKey qt2 d2) with
      | false => rfl
      | true =>
        exfalso
        obtain ⟨rest, heq, hsuf⟩ := (graphGlob_match_iff d _ hd).mp hglob
        have hrest : rest = qt2 ++ ':' :: d2 := by
          have hfull : lit "graph:" ++ rest = lit "graph:" ++ (qt2 ++ ':' :: d2) := by
            rw [← heq]
            simp [graphCacheKey, List.append_assoc]
          exact List.append_cancel_left hfull
        subst hrest
        obtain ⟨u, hu⟩ := hsuf
        have hrev : (d.reverse ++ [':']) ++ u.reverse
            = d2.reverse ++ ':' :: qt2.reverse := by
          have := congrArg List.reverse hu
          simpa [List.reverse_append, List.append_assoc] using this
        have : d.reverse = d2.reverse := by
          refine digits_colon_prefix d.reverse d2.reverse qt2.reverse ?_ ?_ ⟨u.reverse, hrev⟩
          · intro c hc; exact hd c (List.mem_reverse.mp hc)
          · intro c hc; exact hd2 c (List.mem_reverse.mp hc)
        exact hne (List.reverse_injective this).symm
    simp [invalidateCustomerGraphCache, redisInvalidatePattern, hm]
  · have hm : globMatch (graphInvalidateGlob d) k = false := by
      cases hglob : globMatch (graphInvalidateGlob d) k with
      | false => rfl
      | true =>
        exfalso
        obtain ⟨rest, heq, _⟩ := (graphGlob_match_iff d _ hd).mp hglob
        exact hk ⟨rest, heq.symm⟩
    simp [invalidateCustomerGraphCache, redisInvalidatePattern, hm]

theorem graph_cache_invalidation_fanout_witness :
    (∀ c ∈ lit "42", c.isDigit = true)
    ∧ invalidateCustomerGraphCache s0Fix (lit "42")
        (graphCacheKey (lit "similar_customers") (lit "42")) = none
    ∧ invalidateCustomerGraphCache s0Fix (lit "42")
        (graphCacheKey (lit "similar_customers") (lit "7"))
      = s0Fix (graphCacheKey (lit "similar_customers") (lit "7")) :=
  ⟨by decide,
    (graph_cache_invalidation_fanout s0Fix (lit "42") (by decide)).1 (lit "similar_customers"),
    (graph_cache_invalidation_fanout s0Fix (lit "42") (by decide)).2.1
      (lit "similar_customers") (lit "7") (by decide) (by decide)⟩

/-- C1: syncing the same `customer_data` to the graph twice (at arbitrary
server instants) leaves exactly one `Customer` node keyed by the customer
id, that node carries the attribute values of the final run, and the
second run creates no node (the node count is unchanged).  The hypothesis
is the graph's uniqueness constraint on `Customer.customer_id`
(`initialize_graph_schema`): the initial state has no duplicate ids. -/
theorem project_customer_idempotent (g : List CustomerNode) (d : CustomerData)
    (iso1 iso2 : String) (t1 t2 : Nat)
    (h : (g.map CustomerNode.customer_id).Nodup) :
    ((syncCustomerToGraph (syncCustomerToGraph g d iso1 t1) d iso2 t2).filter
        (fun m => decide (m.customer_id = d.id))).length = 1
    ∧ (∀ m ∈ syncCustomerToGraph (syncCustomerToGraph g d iso1 t1) d iso2 t2,
        m.customer_id = d.id → m = customerNodeOf d iso2 t2)
    ∧ (syncCustomerToGraph (syncCustomerToGraph g d iso1 t1) d iso2 t2).length
      = (syncCustomerToGraph g d iso1 t1).length := by
  have hid1 : (customerNodeOf d iso1 t1).customer_id = d.id := rfl
  have hid2 : (customerNodeOf d iso2 t2).customer_id = d.id := rfl
  have hnodup1 : ((syncCustomerToGraph g d iso1 t1).map CustomerNode.customer_id).Nodup :=
    mergeCustomer_nodup g (customerNodeOf d iso1 t1) h
  refine ⟨?_, ?_, ?_⟩
  · have hcnt := mergeCustomer_countP (syncCustomerToGraph g d iso1 t1)
      (customerNodeOf d iso2 t2) hnodup1
    rw [← List.countP_eq_length_filter]
    exact hcnt
  · intro m hm hmd
    exact mergeCustomer_mem_eq (syncCustomerToGraph g d iso1 t1)
      (customerNodeOf d iso2 t2) m hm hmd
  · have hany : (syncCustomerToGraph g d iso1 t1).any
        (fun m => decide (m.customer_id = (customerNodeOf d iso2 t2).customer_id)) = true :=
      mergeCustomer_any_self g (customerNodeOf d iso1 t1)
    have hlen := mergeCustomer_length (syncCustomerToGraph g d iso1 t1)
      (customerNodeOf d iso2 t2)
    rw [hany] at hlen
    simpa using hlen

theorem project_customer_idempotent_witness :
    (([] : List CustomerNode).map CustomerNode.customer_id).Nodup
    ∧ (((syncCustomerToGraph (syncCustomerToGraph [] dFix "2026-01-01" 1) dFix "2026-01-02" 2).filter
          (fun m => decide (m.customer_id = dFix.id))).length = 1
      ∧ (∀ m ∈ syncCustomerToGraph (syncCustomerToGraph [] dFix "2026-01-01" 1) dFix "2026-01-02" 2,
          m.customer_id = dFix.id → m = customerNodeOf dFix "2026-01-02" 2)
      ∧ (syncCustomerToGraph (syncCustomerToGraph [] dFix "2026-01-01" 1) dFix "2026-01-02" 2).length
        = (syncCustomerToGraph [] dFix "2026-01-01" 1).length) :=
  ⟨by simp, project_customer_idempotent [] dFix "2026-01-01" "2026-01-02" 1 2 (by simp)⟩

/-- C3: `sync_conversation_to_graph` issues the `Resolution` upsert (node
and `RESOLVED_WITH` edge) iff the conversation's status is `"resolved"`
and its resolution is a non-empty string; in particular, a resolved
conversation with an empty resolution string issues no Resolution
upsert. -/
theorem resolution_write_iff (conv : ConversationData) (msgs : List MessageData)
    (nowIso : String) :
    (hasResolutionWrite (syncConversationWrites conv msgs nowIso) = true
      ↔ conv.status = some "resolved" ∧ ∃ r, conv.resolution = some r ∧ r ≠ "")
    ∧ hasResolutionWrite (syncConversationWrites
        { id := 7, customer_id := 1, status := some "resolved", resolution := some "" }
        [] nowIso) = false := by
  constructor
  · simp only [hasResolutionWrite, syncConversationWrites, List.any_cons, List.any_append,
      isResolutionWrite, Bool.false_or]
    have hmsgs : ((msgs.filter (fun m => pyTruthy m.intent)).map (fun m =>
          GraphWrite.messageUpsert conv.id m.id ((m.content.getD "").take 200)
            (m.message_type.getD "user") (m.intent.getD "unknown")
            (m.sentiment.getD "neutral"))).any isResolutionWrite = false := by
      simp only [List.any_eq_false]
      intro w hw
      obtain ⟨m, _, rfl⟩ := List.mem_map.mp hw
      simp [isResolutionWrite]
    rw [hmsgs]
    simp only [Bool.false_or]
    constructor
    · intro hres
      split at hres
      · rename_i hcond
        exact ⟨hcond.1, (pyTruthy_iff conv.resolution).mp hcond.2⟩
      · simp at hres
    · rintro ⟨hst, r, hr, hre⟩
      rw [if_pos ⟨hst, (pyTruthy_iff conv.resolution).mpr ⟨r, hr, hre⟩⟩]
      simp [isResolutionWrite]
  · have h0 : ("".isEmpty) = true := rfl
    simp [hasResolutionWrite, syncConversationWrites, isResolutionWrite, pyTruthy, h0]

/-- C4 counterexample: with `batch_size = 0`, `full_sync_customers` does
not fail fast — it issues the count read and one (empty) window read
against the relational store and returns a completed report
(`error = none`, `synced_customers = 0`, `batches_processed = 0`) rather
than a failure result. -/
theorem batch_size_zero_counterexample :
    (fullSyncCustomers dbFix5 (fun _ => .ok) 0).error = none
    ∧ (fullSyncCustomers dbFix5 (fun _ => .ok) 0).stats.synced = 0
    ∧ (fullSyncCustomers dbFix5 (fun _ => .ok) 0).stats.batches = 0
    ∧ (fullSyncCustomers dbFix5 (fun _ => .ok) 0).reads
      = [ReadEvent.countCustomers 5, ReadEvent.fetchCustomers 0 0] := by
  decide

/-- C4 amended: neither `full_sync_customers` nor `full_sync_conversations`
validates `batch_size`.  With `batch_size = 0` each run issues its count
read (and, when the table is nonempty, one empty window read), syncs
nothing, and returns a completed zero-work report instead of failing
fast. -/
theorem batch_size_zero_no_fail_fast (dbC : List CustomerRow)
    (oC : CustomerRow → RecordOutcome) (dbV : List ConversationRow)
    (oV : ConversationRow → RecordOutcome) :
    ((fullSyncCustomers dbC oC 0).error = none
      ∧ (fullSyncCustomers dbC oC 0).stats.synced = 0
      ∧ (fullSyncCustomers dbC oC 0).stats.failed = 0
      ∧ (fullSyncCustomers dbC oC 0).stats.batches = 0
      ∧ ReadEvent.countCustomers dbC.length ∈ (fullSyncCustomers dbC oC 0).reads)
    ∧ ((fullSyncConversations dbV oV 0).error = none
      ∧ (fullSyncConversations dbV oV 0).stats.syncedConversations = 0
      ∧ (fullSyncConversations dbV oV 0).stats.failedConversations = 0
      ∧ (fullSyncConversations dbV oV 0).stats.syncedMessages = 0
      ∧ ReadEvent.countConversations dbV.length ∈ (fullSyncConversations dbV oV 0).reads) := by
  constructor
  · cases dbC with
    | nil => simp [fullSyncCustomers, fullSyncCustomersLoop]
    | cons r tl => simp [fullSyncCustomers, fullSyncCustomersLoop]
  · cases dbV with
    | nil => simp [fullSyncConversations, fullSyncConversationsLoop]
    | cons c tl => simp [fullSyncConversations, fullSyncConversationsLoop]

/-- C6: if every record of one batch window raises during projection, the
run still completes (`error = none`), all its failures are counted
(`failed` equals the count of non-ok records over the whole table and is
at least the raising window's size), the raising window contributes no
synced records, and `synced` is exactly the count of ok records over all
windows — i.e. the other windows' correct synced counts. -/
theorem batch_fault_isolation (db : List CustomerRow)
    (outcome : CustomerRow → RecordOutcome) (bs k : Nat) (hbs : 0 < bs)
    (hraise : ∀ r ∈ windowAt db bs k, outcome r = .raised) :
    (fullSyncCustomers db outcome bs).error = none
    ∧ (fullSyncCustomers db outcome bs).stats.synced
        = db.countP (fun r => decide (outcome r = .ok))
    ∧ (fullSyncCustomers db outcome bs).stats.failed
        = db.countP (fun r => !decide (outcome r = .ok))
    ∧ (windowAt db bs k).countP (fun r => decide (outcome r = .ok)) = 0
    ∧ (windowAt db bs k).length ≤ (fullSyncCustomers db outcome bs).stats.failed := by
  have hsub : List.Sublist (windowAt db bs k) db :=
    (List.take_sublist bs (db.drop (k * bs))).trans (List.drop_sublist (k * bs) db)
  have hwin0 : (windowAt db bs k).countP (fun r => decide (outcome r = .ok)) = 0 :=
    List.countP_eq_zero.mpr (fun r hr => by simp [hraise r hr])
  have hwinlen : (windowAt db bs k).countP (fun r => !decide (outcome r = .ok))
      = (windowAt db bs k).length :=
    List.countP_eq_length.mpr (fun r hr => by simp [hraise r hr])
  rw [fullSyncCustomers_spec db outcome bs hbs]
  refine ⟨rfl, rfl, rfl, hwin0, ?_⟩
  rw [← hwinlen]
  exact hsub.countP_le _

theorem batch_fault_isolation_witness :
    0 < 2
    ∧ (∀ r ∈ windowAt dbFix4 2 1, outcomeFix r = .raised)
    ∧ ((fullSyncCustomers dbFix4 outcomeFix 2).error = none
      ∧ (fullSyncCustomers dbFix4 outcomeFix 2).stats.synced
          = dbFix4.countP (fun r => decide (outcomeFix r = .ok))
      ∧ (fullSyncCustomers dbFix4 outcomeFix 2).stats.failed
          = dbFix4.countP (fun r => !decide (outcomeFix r = .ok))
      ∧ (windowAt dbFix4 2 1).countP (fun r => decide (outcomeFix r = .ok)) = 0
      ∧ (windowAt dbFix4 2 1).length ≤ (fullSyncCustomers dbFix4 outcomeFix 2).stats.failed) :=
  ⟨by decide, by decide, batch_fault_isolation dbFix4 outcomeFix 2 1 (by decide) (by decide)⟩

/-- C9: with exactly 250 customers and batch size 100, a full customer
sync in which every graph write succeeds processes exactly three windows
of 100, 100 and 50 records in increasing offset order, reports
`synced_customers = 250` and `batches_processed = 3`, and completes
without error. -/
theorem full_sync_250_customers (db : List CustomerRow)
    (outcome : CustomerRow → RecordOutcome) (h250 : db.length = 250)
    (hok : ∀ r, outcome r = .ok) :
    (fullSyncCustomers db outcome 100).stats.synced = 250
    ∧ (fullSyncCustomers db outcome 100).stats.batches = 3
    ∧ (fullSyncCustomers db outcome 100).error = none
    ∧ (fullSyncCustomers db outcome 100).reads
      = [ReadEvent.countCustomers 250, ReadEvent.fetchCustomers 0 100,
         ReadEvent.fetchCustomers 100 100, ReadEvent.fetchCustomers 200 50] := by
  have hcnt : db.countP (fun r => decide (outcome r = .ok)) = db.length :=
    List.countP_eq_length.mpr (fun r _ => by simp [hok r])
  have hchunk : chunkMeta 100 (250 + 1) 0 250 = [(0, 100), (100, 100), (200, 50)] := by
    decide
  rw [fullSyncCustomers_spec db outcome 100 (by omega)]
  simp [h250, hcnt, hchunk]

theorem full_sync_250_customers_witness :
    (List.replicate 250 rowFix).length = 250
    ∧ ((fullSyncCustomers (List.replicate 250 rowFix) (fun _ => .ok) 100).stats.synced = 250
      ∧ (fullSyncCustomers (List.replicate 250 rowFix) (fun _ => .ok) 100).stats.batches = 3
      ∧ (fullSyncCustomers (List.replicate 250 rowFix) (fun _ => .ok) 100).error = none
      ∧ (fullSyncCustomers (List.replicate 250 rowFix) (fun _ => .ok) 100).reads
        = [ReadEvent.countCustomers 250, ReadEvent.fetchCustomers 0 100,
           ReadEvent.fetchCustomers 100 100, ReadEvent.fetchCustomers 200 50]) :=
  ⟨by simp, full_sync_250_customers (List.replicate 250 rowFix) (fun _ => .ok)
    (by simp) (fun _ => rfl)⟩

/-- C10: `full_sync_conversations` adds the full number of fetched
messages to `synced_messages` for every conversation whose projection
succeeds, while `sync_conversation_to_graph` writes a `Message` node only
for messages with a truthy `intent`; on a conversation with two messages
of which one has an intent, `synced_messages` strictly exceeds the number
of Message nodes written. -/
theorem synced_messages_overcount (db : List ConversationRow)
    (outcome : ConversationRow → RecordOutcome) (bs : Nat) (iso : String)
    (hbs : 0 < bs) :
    (fullSyncConversations db outcome bs).stats.syncedMessages
      = ((db.filter (fun c => decide (outcome c = .ok))).map
          (fun c => c.messages.length)).sum
    ∧ (∀ c : ConversationRow,
        countMessageWrites (syncConversationWrites c.data c.messages iso)
          = (c.messages.filter (fun m => pyTruthy m.intent)).length)
    ∧ (fullSyncConversations convDbFix (fun _ => RecordOutcome.ok) 50).stats.syncedMessages
      > (convDbFix.map (fun c =>
          countMessageWrites (syncConversationWrites c.data c.messages "2026-01-01"))).sum := by
  refine ⟨?_, ?_, ?_⟩
  · rw [fullSyncConversations_spec db outcome bs hbs]
  · intro c
    have hmap : (c.messages.filter (fun m => pyTruthy m.intent)).countP
        (isMessageWrite ∘ (fun m =>
          GraphWrite.messageUpsert c.data.id m.id ((m.content.getD "").take 200)
            (m.message_type.getD "user") (m.intent.getD "unknown")
            (m.sentiment.getD "neutral")))
        = (c.messages.filter (fun m => pyTruthy m.intent)).length :=
      List.countP_eq_length.mpr (fun m _ => rfl)
    have hres : (if c.data.status = some "resolved" ∧ pyTruthy c.data.resolution = true then
          [GraphWrite.resolutionUpsert c.data.id ((c.data.resolution.getD "").take 100)
            "resolved" (c.data.satisfaction_rating.getD 3)]
        else []).countP isMessageWrite = 0 := by
      by_cases hcond : c.data.status = some "resolved" ∧ pyTruthy c.data.resolution = true
      · rw [if_pos hcond]; rfl
      · rw [if_neg hcond]; rfl
    unfold countMessageWrites syncConversationWrites
    simp only [List.countP_cons, List.countP_append, List.countP_map]
    rw [hmap, hres]
    rfl
  · decide

theorem synced_messages_overcount_witness :
    0 < 50
    ∧ (fullSyncConversations convDbFix (fun _ => RecordOutcome.ok) 50).stats.syncedMessages
      = ((convDbFix.filter (fun c => decide ((fun _ => RecordOutcome.ok) c = RecordOutcome.ok))).map
          (fun c => c.messages.length)).sum
    ∧ (fullSyncConversations convDbFix (fun _ => RecordOutcome.ok) 50).stats.syncedMessages
      > (convDbFix.map (fun c =>
          countMessageWrites (syncConversationWrites c.data c.messages "2026-01-01"))).sum :=
  ⟨by decide,
    (synced_messages_overcount convDbFix (fun _ => RecordOutcome.ok) 50 "2026-01-01" (by decide)).1,
    (synced_messages_overcount convDbFix (fun _ => RecordOutcome.ok) 50 "2026-01-01" (by decide)).2.2⟩

/-- C2 counterexample: the reported `sync_percentage` is
`round((graph/pg)*100, 2)`, not the exact quotient — with 3 relational
rows and 1 graph node the report carries 33.33 while
`(graph_count/relational_count)*100 = 100/3 = 33.333…`. -/
theorem integrity_percentage_counterexample :
    (validateSyncIntegrity (fun _ => 3) (fun _ => 1)).syncPercentages EntityKind.customers
      ≠ rawPercentage 3 1
    ∧ (validateSyncIntegrity (fun _ => 3) (fun _ => 1)).syncPercentages EntityKind.customers
      = 3333 / 100
    ∧ rawPercentage 3 1 = 100 / 3 := by
  have hraw : rawPercentage 3 1 = 100 / 3 := by
    unfold rawPercentage
    norm_num
  have hfloor : round ((100 : ℚ) / 3 * 100) = 3333 := by
    have h1 : (100 : ℚ) / 3 * 100 = 10000 / 3 := by norm_num
    rw [h1, round_eq]
    have h2 : (10000 : ℚ) / 3 + 1 / 2 = 20003 / 6 := by norm_num
    rw [h2]
    rw [Int.floor_eq_iff]
    constructor <;> norm_num
  have hround : round2 ((100 : ℚ) / 3) = 3333 / 100 := by
    unfold round2
    rw [hfloor]
    norm_num
  have hpc : (validateSyncIntegrity (fun _ => 3) (fun _ => 1)).syncPercentages
      EntityKind.customers = round2 (rawPercentage 3 1) := by
    simp [validateSyncIntegrity]
  rw [hpc, hraw, hround]
  refine ⟨by norm_num, rfl, rfl⟩

/-- C2 amended: for every entity kind, `validate_sync_integrity` reports
`sync_percentage` equal to `(graph_count/relational_count)*100` rounded to
two decimal places when the relational count is positive, reports exactly
100.0 when the relational count is 0, and appends the re-run-full-sync
recommendation for that entity iff the relational count is positive and
the unrounded percentage is below 95. -/
theorem integrity_percentage_policy (pg neo : EntityKind → Nat) (e : EntityKind) :
    (0 < pg e →
      (validateSyncIntegrity pg neo).syncPercentages e
          = round2 (rawPercentage (pg e) (neo e))
      ∧ (e ∈ (validateSyncIntegrity pg neo).recommendations
          ↔ rawPercentage (pg e) (neo e) < 95))
    ∧ (pg e = 0 →
      (validateSyncIntegrity pg neo).syncPercentages e = 100
      ∧ e ∉ (validateSyncIntegrity pg neo).recommendations) := by
  have hmem : e ∈ entityOrder := by cases e <;> simp [entityOrder]
  constructor
  · intro hpg
    constructor
    · simp [validateSyncIntegrity, hpg]
    · simp only [validateSyncIntegrity]
      rw [List.mem_filter]
      constructor
      · rintro ⟨-, h⟩
        simp only [Bool.and_eq_true, decide_eq_true_eq] at h
        exact h.2
      · intro h
        exact ⟨hmem, by simp [hpg, h]⟩
  · intro hpg
    constructor
    · simp [validateSyncIntegrity, hpg]
    · simp only [validateSyncIntegrity]
      rw [List.mem_filter]
      rintro ⟨-, h⟩
      simp only [Bool.and_eq_true, decide_eq_true_eq] at h
      omega

theorem integrity_percentage_policy_witness :
    0 < 20
    ∧ ((validateSyncIntegrity (fun _ => 20) (fun _ => 19)).syncPercentages
          EntityKind.customers = round2 (rawPercentage 20 19)
      ∧ (EntityKind.customers ∈ (validateSyncIntegrity (fun _ => 20)
            (fun _ => 19)).recommendations
          ↔ rawPercentage 20 19 < 95)) :=
  ⟨by decide,
    (integrity_percentage_policy (fun _ => 20) (fun _ => 19) EntityKind.customers).1
      (by decide)⟩

/-- C5 counterexample: `schedule_automatic_sync` stores the
`last_incremental_sync` checkpoint before inspecting the run result, so an
iteration whose incremental sync returned an error result still writes the
checkpoint; likewise `full_system_sync` stores `last_full_sync` even when a
component reported an error (`overall_success = false`). -/
theorem checkpoint_written_on_error_counterexample :
    (RunResult.mk (some "boom")).error.isSome = true
    ∧ redisGet (scheduleSyncIteration (RunResult.mk (some "boom"))
        (emptyCache String) "2026-01-01T00:00:00" 0).1 lastIncrementalSyncKey 0
      = some "2026-01-01T00:00:00"
    ∧ (fullSystemSync (RunResult.mk (some "boom")) (RunResult.mk none) (RunResult.mk none)
        (emptyCache String) "2026-01-01T00:00:00" 0).1 = false
    ∧ redisGet (fullSystemSync (RunResult.mk (some "boom")) (RunResult.mk none) (RunResult.mk none)
        (emptyCache String) "2026-01-01T00:00:00" 0).2 lastFullSyncKey 0
      = some "2026-01-01T00:00:00" := by
  refine ⟨rfl, ?_, rfl, ?_⟩ <;> decide

/-- C5 amended: the checkpoint keys are written whenever the run body
completes without an uncaught exception, regardless of whether the run
returned an error result — `schedule_automatic_sync` writes
`last_incremental_sync` before checking the result for an error, and
`full_system_sync` writes `last_full_sync` even when `overall_success` is
false. -/
theorem checkpoint_written_after_every_completed_run (result : RunResult)
    (s s2 : CacheState String) (iso : String) (now : Nat)
    (rc rv rk : RunResult) :
    redisGet (scheduleSyncIteration result s iso now).1 lastIncrementalSyncKey now = some iso
    ∧ redisGet (fullSystemSync rc rv rk s2 iso now).2 lastFullSyncKey now = some iso := by
  have h1 : now < now + 86400 := by omega
  constructor
  · rw [show (scheduleSyncIteration result s iso now).1
        = redisSet s lastIncrementalSyncKey iso (some 86400) now from rfl]
    simp [redisGet, redisSet_self s lastIncrementalSyncKey iso 86400 now (by omega), h1]
  · rw [show (fullSystemSync rc rv rk s2 iso now).2
        = redisSet s2 lastFullSyncKey iso (some 86400) now from rfl]
    simp [redisGet, redisSet_self s2 lastFullSyncKey iso 86400 now (by omega), h1]

end AICS
